import Mathlib

/-!
Verification development for glug's `logparser` package (`logparser/parser.go`).

The per-line pipeline is embedded shallowly:

* A Go JSON value (`encoding/json` unmarshalled into `interface{}`) is the
  inductive `GoJson`.  JSON numbers unmarshal to Go `float64`; every number
  appearing in the claims and tests is an integer exactly representable in
  `float64`, so `GoJson.num` carries an `Int` and the `float64`-specific
  behaviours that matter (the `%v` scientific rendering, the `> 1e10`
  comparison, the `int64` conversion and its overflow on multiplication by
  `time.Millisecond`) are modelled explicitly on `Int`.
* A Go `map[string]interface{}` is a `List (String × GoJson)` in some
  iteration order; JSON object keys are unique, so theorems that depend on
  the map structure assume the key list is `Nodup`.  A malformed input line
  is the `none` case of an `Option GoJson` argument (the text never parsed),
  and `unmarshalMap` models `json.Unmarshal` into a map: it succeeds on a
  JSON object and on JSON `null` (which leaves the map `nil`, observationally
  the empty map) and fails on everything else.
* The `github.com/fatih/color` helpers are modelled with colors enabled:
  `XxxString s` wraps `s` in the corresponding ANSI SGR escape pair.
* Go strings are UTF-8 byte strings and `strings` functions scan bytes; a
  valid UTF-8 pattern can only match at rune boundaries, so matching and
  replacement are modelled on `List Char`.  Case mapping (`strings.ToUpper`,
  `ToLower`, `EqualFold`) is modelled on the ASCII range, which covers every
  alias, color name and field name the code compares against.
* `time.Unix(..).Format("2006-01-02 15:04:05")` renders in the process time
  zone; the repository's tests pin the UTC rendering, and the embedding
  fixes the zone to UTC.
-/

/-- A Go value produced by `encoding/json` unmarshalling (`interface{}`).
`num` carries an `Int`: the claims only exercise integral JSON numbers,
which `float64` represents exactly below `2^53`. -/
inductive GoJson where
  | null : GoJson
  | bool : Bool → GoJson
  | num : Int → GoJson
  | str : String → GoJson
  | arr : List GoJson → GoJson
  | obj : List (String × GoJson) → GoJson

/-- First-match lookup in a Go map modelled as an association list
(`rawLog[key]` with the `, ok` form). -/
def mapLookup (m : List (String × GoJson)) (key : String) : Option GoJson :=
  match m with
  | [] => none
  | (k, v) :: rest => if k = key then some v else mapLookup rest key

/-- `json.Unmarshal(data, &m)` for `m : map[string]interface{}`: succeeds on a
JSON object, succeeds on JSON `null` leaving the map `nil` (which reads as the
empty map), and errors on arrays and all other scalars. -/
def unmarshalMap : GoJson → Option (List (String × GoJson))
  | GoJson.obj fields => some fields
  | GoJson.null => some []
  | _ => none

/-- The set `strings.TrimSpace` trims: Go `unicode.IsSpace`. -/
def goIsSpace (c : Char) : Bool :=
  c = ' ' || c = '\t' || c = '\n' || c = (Char.ofNat 11) || c = (Char.ofNat 12) ||
  c = '\r' || c = (Char.ofNat 0x85) || c = (Char.ofNat 0xA0) ||
  c = (Char.ofNat 0x1680) || ((Char.ofNat 0x2000) ≤ c && c ≤ (Char.ofNat 0x200A)) ||
  c = (Char.ofNat 0x2028) || c = (Char.ofNat 0x2029) || c = (Char.ofNat 0x202F) ||
  c = (Char.ofNat 0x205F) || c = (Char.ofNat 0x3000)

/-- `strings.TrimSpace`. -/
def goTrimSpace (s : String) : String :=
  String.mk (((s.data.dropWhile goIsSpace).reverse.dropWhile goIsSpace).reverse)

/-- Per-character ASCII upper-casing (the fragment of Go's Unicode case
mapping exercised by the code's comparisons, which are all ASCII). -/
def asciiToUpper (c : Char) : Char :=
  if 'a' ≤ c && c ≤ 'z' then Char.ofNat (c.toNat - 32) else c

/-- Per-character ASCII lower-casing. -/
def asciiToLower (c : Char) : Char :=
  if 'A' ≤ c && c ≤ 'Z' then Char.ofNat (c.toNat + 32) else c

/-- `strings.ToUpper` (ASCII fragment). -/
def goToUpper (s : String) : String := String.mk (s.data.map asciiToUpper)

/-- `strings.ToLower` (ASCII fragment). -/
def goToLower (s : String) : String := String.mk (s.data.map asciiToLower)

/-- `strings.EqualFold` (ASCII fragment of Unicode simple case folding). -/
def goEqualFold (s t : String) : Bool := goToLower s = goToLower t

/-- Go `type LogLevel int`. -/
abbrev LogLevel := Int

def LevelTrace : LogLevel := 0
def LevelDebug : LogLevel := 1
def LevelInfo : LogLevel := 2
def LevelWarn : LogLevel := 3
def LevelError : LogLevel := 4

/-- The `switch` body of `parseLogLevel`, on the already-normalized string. -/
def parseLogLevelSwitch (l : String) : LogLevel :=
  if l = "TRACE" || l = "TRC" then LevelTrace
  else if l = "DEBUG" || l = "DBG" then LevelDebug
  else if l = "INFO" || l = "INF" then LevelInfo
  else if l = "WARN" || l = "WARNING" || l = "WRN" then LevelWarn
  else if l = "ERROR" || l = "ERR" || l = "FATAL" || l = "CRIT" || l = "CRITICAL" then LevelError
  else LevelInfo

/-- `parseLogLevel`: normalize by trimming and upper-casing, then the switch. -/
def parseLogLevel (levelStr : String) : LogLevel :=
  parseLogLevelSwitch (goToUpper (goTrimSpace levelStr))

/-- `ShouldShowLogLevel(jsonLine, minLevelStr)`.  The Go function returns
`(bool, error)` with the error always `nil`; only the boolean is modelled.
The raw line is `none` when the text failed JSON parsing, otherwise the
parsed JSON value; `unmarshalMap` reproduces `json.Unmarshal` into a map. -/
def ShouldShowLogLevel (jsonLine : Option GoJson) (minLevelStr : String) : Bool :=
  match jsonLine.bind unmarshalMap with
  | none => true
  | some rawLog =>
    match mapLookup rawLog "level" with
    | none => true
    | some levelInterface =>
      match levelInterface with
      | GoJson.str levelStr => decide (parseLogLevel levelStr ≥ parseLogLevel minLevelStr)
      | _ => true

/-! ### fatih/color helpers (colors enabled: ANSI SGR escape wrapping) -/

def ansiWrap (code : String) (s : String) : String :=
  "\x1b[" ++ code ++ "m" ++ s ++ "\x1b[0m"

def RedString (s : String) : String := ansiWrap "31" s
def GreenString (s : String) : String := ansiWrap "32" s
def YellowString (s : String) : String := ansiWrap "33" s
def BlueString (s : String) : String := ansiWrap "34" s
def MagentaString (s : String) : String := ansiWrap "35" s
def CyanString (s : String) : String := ansiWrap "36" s
def WhiteString (s : String) : String := ansiWrap "37" s

/-- `getColorFunc`. -/
def getColorFunc (colorName : String) : String → String :=
  let l := goToLower colorName
  if l = "red" then RedString
  else if l = "green" then GreenString
  else if l = "yellow" then YellowString
  else if l = "blue" then BlueString
  else if l = "magenta" then MagentaString
  else if l = "cyan" then CyanString
  else if l = "white" then WhiteString
  else WhiteString

/-- `formatLevel`. -/
def formatLevel (level : String) : String :=
  let l := goToUpper level
  if l = "ERROR" || l = "ERR" then RedString l
  else if l = "WARN" || l = "WARNING" then YellowString l
  else if l = "INFO" then GreenString l
  else if l = "DEBUG" then BlueString l
  else if l = "TRACE" then MagentaString l
  else WhiteString l

/-! ### strings.Contains / strings.ReplaceAll

Go scans UTF-8 bytes; a valid UTF-8 pattern only matches at rune boundaries,
so the scan is modelled on `List Char`. -/

def charsStartWith : List Char → List Char → Bool
  | [], _ => true
  | _ :: _, [] => false
  | p :: ps, c :: cs => p = c && charsStartWith ps cs

def charsContain (pat : List Char) : List Char → Bool
  | [] => pat = []
  | c :: rest => charsStartWith pat (c :: rest) || charsContain pat rest

/-- `strings.Contains(s, pat)`. -/
def goContains (s pat : String) : Bool := charsContain pat.data s.data

/-- `strings.ReplaceAll` with an empty pattern: the replacement is inserted
at every rune boundary, including before the first rune and after the last. -/
def interRep (rep : List Char) : List Char → List Char
  | [] => rep
  | c :: rest => rep ++ c :: interRep rep rest

/-- Left-to-right non-overlapping replacement of a non-empty pattern.  The
fuel starts at `length + 1` and every step consumes at least one character,
so it never runs out. -/
def replaceChars (pat rep : List Char) : Nat → List Char → List Char
  | _, [] => []
  | 0, s => s
  | Nat.succ fuel, c :: rest =>
      if charsStartWith pat (c :: rest)
      then rep ++ replaceChars pat rep fuel (List.drop (pat.length - 1) rest)
      else c :: replaceChars pat rep fuel rest

/-- `strings.ReplaceAll(s, pat, rep)`. -/
def goReplaceAll (s pat rep : String) : String :=
  if pat.data = [] then String.mk (interRep rep.data s.data)
  else String.mk (replaceChars pat.data rep.data (s.data.length + 1) s.data)

/-- `applyCustomColors`.  The Go parameter is a `map[string]string`; the list
argument is the sequence of its entries in one iteration order (Go map
iteration order is unspecified, so any permutation of the entries is a
possible run of the `for ... range` loop). -/
def applyCustomColors (text : String) (customColors : List (String × String)) : String :=
  if customColors.length = 0 then WhiteString text
  else
    let result := customColors.foldl
      (fun result wc =>
        if goContains result wc.1
        then goReplaceAll result wc.1 (getColorFunc wc.2 wc.1)
        else result) text
    if result = text then WhiteString text else result

/-! ### fmt.Sprintf("%v", value) for unmarshalled JSON values -/

def stripTrailingZeros (ds : List Char) : List Char :=
  (ds.reverse.dropWhile (fun c => c = '0')).reverse

def pad2 (n : Nat) : String := if n < 10 then "0" ++ toString n else toString n

/-- `%v` of a `float64` holding the integer `n` (`strconv.FormatFloat 'g' -1`):
plain decimal while the decimal exponent is below 6, shortest-digit scientific
notation from `1e6` up.  Exact for integers below `2^53`, which covers every
number in the repository's data. -/
def goFormatFloat (n : Int) : String :=
  if n = 0 then "0"
  else
    let sign := if n < 0 then "-" else ""
    let ds := (toString n.natAbs).data
    let exp := ds.length - 1
    if exp < 6 then sign ++ String.mk ds
    else
      match stripTrailingZeros ds with
      | [] => sign ++ "0"
      | d :: rest =>
        let mant := if rest = [] then String.mk [d] else String.mk [d] ++ "." ++ String.mk rest
        sign ++ mant ++ "e+" ++ pad2 exp

mutual

/-- `fmt.Sprintf("%v", value)` on an unmarshalled JSON value: `<nil>` for nil,
`true`/`false`, `%v` float formatting for numbers, the raw string for strings,
space-separated brackets for slices, and `map[k:v ...]` with keys in sorted
order (Go's `fmt` prints maps with sorted keys). -/
def goFormatValue : GoJson → String
  | GoJson.null => "<nil>"
  | GoJson.bool b => if b then "true" else "false"
  | GoJson.num n => goFormatFloat n
  | GoJson.str s => s
  | GoJson.arr xs => "[" ++ String.intercalate " " (goFormatList xs) ++ "]"
  | GoJson.obj fs =>
      "map[" ++ String.intercalate " "
        ((List.insertionSort (fun a b => a.1 ≤ b.1) (goFormatEntries fs)).map Prod.snd) ++ "]"

def goFormatList : List GoJson → List String
  | [] => []
  | x :: xs => goFormatValue x :: goFormatList xs

def goFormatEntries : List (String × GoJson) → List (String × String)
  | [] => []
  | (k, v) :: rest => (k, k ++ ":" ++ goFormatValue v) :: goFormatEntries rest

end

/-! ### time.Unix(..).Format("2006-01-02 15:04:05") in UTC -/

/-- Proleptic Gregorian civil date from days since the Unix epoch
(the standard era/year-of-era decomposition, valid for all integers). -/
def civilFromDays (z0 : Int) : Int × Int × Int :=
  let z := z0 + 719468
  let era := Int.fdiv z 146097
  let doe := z - era * 146097
  let yoe := Int.fdiv (doe - Int.fdiv doe 1460 + Int.fdiv doe 36524 - Int.fdiv doe 146096) 365
  let y := yoe + era * 400
  let doy := doe - (365 * yoe + Int.fdiv yoe 4 - Int.fdiv yoe 100)
  let mp := Int.fdiv (5 * doy + 2) 153
  let d := doy - Int.fdiv (153 * mp + 2) 5 + 1
  let m := mp + (if mp < 10 then 3 else (-9))
  (y + (if m ≤ 2 then 1 else 0), m, d)

def pad4aux (k : Nat) : String :=
  if k < 10 then "000" ++ toString k
  else if k < 100 then "00" ++ toString k
  else if k < 1000 then "0" ++ toString k
  else toString k

def pad4 (n : Int) : String :=
  if n < 0 then "-" ++ pad4aux n.natAbs else pad4aux n.natAbs

/-- The `"2006-01-02 15:04:05"` layout: zero-padded wall-clock fields. -/
def fmtCivil (y mo d h mi s : Int) : String :=
  pad4 y ++ "-" ++ pad2 mo.toNat ++ "-" ++ pad2 d.toNat ++ " " ++
  pad2 h.toNat ++ ":" ++ pad2 mi.toNat ++ ":" ++ pad2 s.toNat

/-- Epoch seconds rendered through the `"2006-01-02 15:04:05"` layout (UTC). -/
def epochToDateTime (sec : Int) : String :=
  let days := Int.fdiv sec 86400
  let sod := sec - days * 86400
  let c := civilFromDays days
  fmtCivil c.1 c.2.1 c.2.2 (Int.fdiv sod 3600) (Int.fdiv (Int.emod sod 3600) 60) (Int.emod sod 60)

/-- Two's-complement wraparound of Go `int64` arithmetic. -/
def int64wrap (x : Int) : Int :=
  Int.emod (x + 9223372036854775808) 18446744073709551616 - 9223372036854775808

/-! ### time.Parse for RFC3339 and "2006-01-02T15:04:05"

Modelled for the forms the layouts accept: a strict `YYYY-MM-DDTHH:MM:SS`
core with range validation, an optional fractional-seconds field (accepted
on parse even when absent from the layout), and for RFC3339 a mandatory
`Z` or `±hh:mm` zone.  `Format` then prints the wall-clock fields as
written (a parsed fixed-offset time keeps its own zone). -/

def isDigitCh (c : Char) : Bool := '0' ≤ c && c ≤ '9'

def dval (c : Char) : Nat := c.toNat - 48

def leapYear (y : Nat) : Bool := y % 4 = 0 && (y % 100 ≠ 0 || y % 400 = 0)

def daysIn (y mo : Nat) : Nat :=
  if mo = 2 then (if leapYear y then 29 else 28)
  else if mo = 4 || mo = 6 || mo = 9 || mo = 11 then 30
  else 31

/-- Parse and validate the 19-character `YYYY-MM-DDTHH:MM:SS` core, returning
the wall-clock fields and the unconsumed remainder. -/
def parseCore : List Char → Option ((Nat × Nat × Nat × Nat × Nat × Nat) × List Char)
  | y1 :: y2 :: y3 :: y4 :: '-' :: a1 :: a2 :: '-' :: b1 :: b2 :: 'T' ::
      h1 :: h2 :: ':' :: m1 :: m2 :: ':' :: s1 :: s2 :: rest =>
    if isDigitCh y1 && isDigitCh y2 && isDigitCh y3 && isDigitCh y4 &&
       isDigitCh a1 && isDigitCh a2 && isDigitCh b1 && isDigitCh b2 &&
       isDigitCh h1 && isDigitCh h2 && isDigitCh m1 && isDigitCh m2 &&
       isDigitCh s1 && isDigitCh s2 then
      let y := 1000 * dval y1 + 100 * dval y2 + 10 * dval y3 + dval y4
      let mo := 10 * dval a1 + dval a2
      let d := 10 * dval b1 + dval b2
      let h := 10 * dval h1 + dval h2
      let mi := 10 * dval m1 + dval m2
      let s := 10 * dval s1 + dval s2
      if 1 ≤ mo && mo ≤ 12 && 1 ≤ d && d ≤ daysIn y mo && h ≤ 23 && mi ≤ 59 && s ≤ 59
      then some ((y, mo, d, h, mi, s), rest)
      else none
    else none
  | _ => none

/-- Skip an optional fractional-seconds field (`.` or `,` plus digits). -/
def fracRest (rest : List Char) : List Char :=
  match rest with
  | sep :: c :: tail =>
      if (sep = '.' || sep = ',') && isDigitCh c then tail.dropWhile isDigitCh else rest
  | _ => rest

/-- A complete RFC3339 zone suffix: `Z` or `±hh:mm`. -/
def zoneOK : List Char → Bool
  | ['Z'] => true
  | [sgn, h1, h2, ':', m1, m2] =>
      (sgn = '+' || sgn = '-') && isDigitCh h1 && isDigitCh h2 && isDigitCh m1 && isDigitCh m2 &&
      decide (10 * dval h1 + dval h2 ≤ 23) && decide (10 * dval m1 + dval m2 ≤ 59)
  | _ => false

/-- `time.Parse(time.RFC3339, t)`, reduced to its wall-clock fields. -/
def goParseRFC3339 (t : String) : Option (Nat × Nat × Nat × Nat × Nat × Nat) :=
  match parseCore t.data with
  | none => none
  | some (dt, rest) => if zoneOK (fracRest rest) then some dt else none

/-- `time.Parse("2006-01-02T15:04:05", t)`, reduced to its wall-clock fields. -/
def goParseNoZone (t : String) : Option (Nat × Nat × Nat × Nat × Nat × Nat) :=
  match parseCore t.data with
  | none => none
  | some (dt, rest) => if fracRest rest = [] then some dt else none

def fmtDT (dt : Nat × Nat × Nat × Nat × Nat × Nat) : String :=
  fmtCivil dt.1 dt.2.1 dt.2.2.1 dt.2.2.2.1 dt.2.2.2.2.1 dt.2.2.2.2.2

/-- `formatTime(timeVal)`.  The `float64` and `int64` arms coincide on the
integers `GoJson.num` carries: seconds when the value is at most `1e10`,
otherwise `time.Unix(0, t*int64(time.Millisecond))`, whose `int64`
multiplication wraps and whose nanoseconds are floor-divided into seconds. -/
def formatTime : GoJson → String
  | GoJson.null => ""
  | GoJson.num t =>
      if t > 10000000000
      then epochToDateTime (Int.fdiv (int64wrap (t * 1000000)) 1000000000)
      else epochToDateTime t
  | GoJson.str t =>
      match goParseRFC3339 t with
      | some dt => fmtDT dt
      | none =>
        match goParseNoZone t with
        | some dt => fmtDT dt
        | none => t
  | v => goFormatValue v

/-! ### Record extraction and line rendering -/

/-- `LogEntry` with Go zero values as defaults (`Other` is allocated fresh). -/
structure LogEntry where
  Level : String := ""
  Time : GoJson := GoJson.null
  Message : String := ""
  Other : List (String × GoJson) := []

/-- One iteration of the `for key, value := range rawLog` extraction loop. -/
def extractStep (e : LogEntry) (kv : String × GoJson) : LogEntry :=
  if kv.1 = "level" then
    match kv.2 with
    | GoJson.str s => { e with Level := s }
    | _ => e
  else if kv.1 = "time" then { e with Time := kv.2 }
  else if kv.1 = "message" then
    match kv.2 with
    | GoJson.str s => { e with Message := s }
    | _ => e
  else { e with Other := e.Other ++ [kv] }

/-- The field-partitioning loop of `ParseAndFormatWithOptions`. -/
def extractEntry (rawLog : List (String × GoJson)) : LogEntry :=
  rawLog.foldl extractStep {}

/-- Lexicographic order on rune sequences: Go's `s < t` on UTF-8 byte strings
(byte order and code-point order agree on valid UTF-8). -/
def charListLe : List Char → List Char → Bool
  | [], _ => true
  | _ :: _, [] => false
  | a :: as, b :: bs => if a = b then charListLe as bs else decide (a < b)

/-- Go string `<=` as `sort.Strings` compares. -/
def goStringLe (a b : String) : Bool := charListLe a.data b.data

/-- `sort.Strings`. -/
def sortStrings (keys : List String) : List String :=
  List.insertionSort (fun a b => goStringLe a b = true) keys

/-- Go map indexing without the `, ok` form: zero value when absent. -/
def mapIndex (m : List (String × GoJson)) (key : String) : GoJson :=
  match mapLookup m key with
  | some v => v
  | none => GoJson.null

/-- `convertTimestampFieldWithConfig`. -/
def convertTimestampFieldWithConfig (fieldName : String) (value : GoJson)
    (customFields : List String) : String :=
  let shouldConvert := customFields.any (fun field => goEqualFold fieldName field)
  if !shouldConvert then goFormatValue value
  else
    let converted := formatTime value
    let originalStr := goFormatValue value
    if converted ≠ "" && converted ≠ originalStr
    then converted ++ " (" ++ originalStr ++ ")"
    else originalStr

/-- The `key=value` segment rendered for one open-bag key. -/
def renderField (entry : LogEntry) (customColors : List (String × String))
    (convertTimestamps : Bool) (timestampFields : List String) (key : String) : String :=
  let value := mapIndex entry.Other key
  let keyStr := MagentaString key
  let convertedValue :=
    if convertTimestamps then convertTimestampFieldWithConfig key value timestampFields
    else goFormatValue value
  let valueStr := applyCustomColors (YellowString convertedValue) customColors
  keyStr ++ "=" ++ valueStr

/-- `formatEntryWithOptions`. -/
def formatEntryWithOptions (entry : LogEntry) (customColors : List (String × String))
    (convertTimestamps : Bool) (timestampFields : List String) : String :=
  let parts : List String := []
  let timeStr := formatTime entry.Time
  let parts := if timeStr ≠ "" then parts ++ [CyanString timeStr] else parts
  let parts := if entry.Level ≠ "" then parts ++ [formatLevel entry.Level] else parts
  let parts :=
    if entry.Message ≠ "" then parts ++ [applyCustomColors entry.Message customColors] else parts
  let keys := sortStrings (entry.Other.map Prod.fst)
  let otherParts := keys.map (renderField entry customColors convertTimestamps timestampFields)
  let parts := if otherParts ≠ [] then parts ++ [String.intercalate " " otherParts] else parts
  String.intercalate " " parts

/-- `ParseAndFormatWithOptions`: `none` is the `ParseError` outcome. -/
def ParseAndFormatWithOptions (jsonLine : Option GoJson) (customColors : List (String × String))
    (convertTimestamps : Bool) (timestampFields : List String) : Option String :=
  match jsonLine.bind unmarshalMap with
  | none => none
  | some rawLog =>
      some (formatEntryWithOptions (extractEntry rawLog) customColors convertTimestamps
        timestampFields)

/-- `ParseAndFormatWithColors`. -/
def ParseAndFormatWithColors (jsonLine : Option GoJson)
    (customColors : List (String × String)) : Option String :=
  ParseAndFormatWithOptions jsonLine customColors false []

/-- `ParseAndFormat`. -/
def ParseAndFormat (jsonLine : Option GoJson) : Option String :=
  ParseAndFormatWithColors jsonLine []

/-! ### Helper lemmas -/

theorem charListLe_total : ∀ as bs : List Char,
    charListLe as bs = true ∨ charListLe bs as = true := by
  intro as
  induction as with
  | nil => intro bs; exact Or.inl rfl
  | cons a as ih =>
      intro bs
      cases bs with
      | nil => exact Or.inr rfl
      | cons b bs =>
          by_cases hab : a = b
          · subst hab
            rcases ih bs with h | h
            · exact Or.inl (by simp [charListLe, h])
            · exact Or.inr (by simp [charListLe, h])
          · rcases lt_or_gt_of_ne hab with h | h
            · exact Or.inl (by simp [charListLe, hab, h])
            · exact Or.inr (by simp [charListLe, Ne.symm hab, h])

theorem charListLe_trans : ∀ as bs cs : List Char,
    charListLe as bs = true → charListLe bs cs = true → charListLe as cs = true := by
  intro as
  induction as with
  | nil => intro bs cs _ _; rfl
  | cons a as ih =>
      intro bs cs h1 h2
      cases bs with
      | nil => exact absurd h1 (by simp [charListLe])
      | cons b bs =>
          cases cs with
          | nil => exact absurd h2 (by simp [charListLe])
          | cons c cs =>
              by_cases hab : a = b <;> by_cases hbc : b = c
              · subst hab; subst hbc
                simp only [charListLe, if_pos rfl] at h1 h2 ⊢
                exact ih _ _ h1 h2
              · subst hab
                simp only [charListLe, if_pos rfl, if_neg hbc, decide_eq_true_eq] at h2 ⊢
                exact h2
              · subst hbc
                simp only [charListLe, if_neg hab, decide_eq_true_eq] at h1
                simp only [charListLe, if_neg hab, decide_eq_true_eq]
                exact h1
              · simp only [charListLe, if_neg hab, decide_eq_true_eq] at h1
                simp only [charListLe, if_neg hbc, decide_eq_true_eq] at h2
                have hac : a < c := lt_trans h1 h2
                simp [charListLe, ne_of_lt hac, hac]

theorem charListLe_antisymm : ∀ as bs : List Char,
    charListLe as bs = true → charListLe bs as = true → as = bs := by
  intro as
  induction as with
  | nil =>
      intro bs _ h2
      cases bs with
      | nil => rfl
      | cons b bs => exact absurd h2 (by simp [charListLe])
  | cons a as ih =>
      intro bs h1 h2
      cases bs with
      | nil => exact absurd h1 (by simp [charListLe])
      | cons b bs =>
          by_cases hab : a = b
          · subst hab
            simp only [charListLe, if_pos rfl] at h1 h2
            rw [ih _ h1 h2]
          · simp only [charListLe, if_neg hab, decide_eq_true_eq] at h1
            simp only [charListLe, if_neg (Ne.symm hab), decide_eq_true_eq] at h2
            exact absurd h2 (lt_asymm h1)

instance : IsTotal String (fun a b => goStringLe a b = true) :=
  ⟨fun a b => charListLe_total a.data b.data⟩

instance : IsTrans String (fun a b => goStringLe a b = true) :=
  ⟨fun a b c => charListLe_trans a.data b.data c.data⟩

instance : IsAntisymm String (fun a b => goStringLe a b = true) := by
  refine ⟨fun a b h1 h2 => ?_⟩
  cases a with
  | mk da =>
      cases b with
      | mk db => exact congrArg String.mk (charListLe_antisymm da db h1 h2)

theorem sortStrings_sorted (keys : List String) :
    List.Sorted (fun a b => goStringLe a b = true) (sortStrings keys) :=
  List.sorted_insertionSort _ keys

theorem sortStrings_perm (keys : List String) : (sortStrings keys).Perm keys :=
  List.perm_insertionSort _ keys

theorem sortStrings_congr_perm {k₁ k₂ : List String} (p : k₁.Perm k₂) :
    sortStrings k₁ = sortStrings k₂ :=
  List.eq_of_perm_of_sorted ((sortStrings_perm k₁).trans (p.trans (sortStrings_perm k₂).symm))
    (sortStrings_sorted k₁) (sortStrings_sorted k₂)

theorem sortStrings_eq_nil {keys : List String} : sortStrings keys = [] ↔ keys = [] := by
  constructor
  · intro h
    have := sortStrings_perm keys
    rw [h] at this
    exact this.symm.eq_nil
  · intro h
    subst h
    rfl

/-- Key lookup is stable under reordering of a Go map's entries when the
keys are distinct (as JSON object keys are). -/
theorem mapLookup_perm (key : String) :
    ∀ {m₁ m₂ : List (String × GoJson)}, m₁.Perm m₂ →
      (m₁.map Prod.fst).Nodup → mapLookup m₁ key = mapLookup m₂ key := by
  intro m₁ m₂ p
  induction p with
  | nil => intro _; rfl
  | cons x _ ih =>
      intro h
      simp only [List.map_cons, List.nodup_cons] at h
      obtain ⟨k, v⟩ := x
      by_cases hx : k = key
      · simp [mapLookup, hx]
      · simp [mapLookup, hx, ih h.2]
  | swap x y l =>
      intro h
      obtain ⟨k₁, v₁⟩ := x
      obtain ⟨k₂, v₂⟩ := y
      simp only [List.map_cons, List.nodup_cons, List.mem_cons] at h
      have hxy : k₂ ≠ k₁ := fun hc => h.1 (Or.inl hc)
      by_cases h1 : k₂ = key <;> by_cases h2 : k₁ = key
      · exact absurd (h1.trans h2.symm) hxy
      · simp [mapLookup, h1, h2]
      · simp [mapLookup, h1, h2]
      · simp [mapLookup, h1, h2]
  | trans p₁ p₂ ih₁ ih₂ =>
      intro h
      rw [ih₁ h, ih₂ (((p₁.map Prod.fst).nodup_iff).mp h)]

theorem mapLookup_eq_none {m : List (String × GoJson)} {key : String}
    (h : key ∉ m.map Prod.fst) : mapLookup m key = none := by
  induction m with
  | nil => rfl
  | cons kv rest ih =>
      simp only [List.map_cons, List.mem_cons] at h
      push_neg at h
      rw [mapLookup, if_neg (fun hc => h.1 hc.symm)]
      exact ih h.2

/-- A key protrudes into the open field bag exactly when it is none of the
three recognized names. -/
def isOpenField (kv : String × GoJson) : Bool :=
  !(kv.1 = "level" || kv.1 = "time" || kv.1 = "message")

theorem extractStep_Level (e : LogEntry) (kv : String × GoJson) :
    (extractStep e kv).Level =
      if kv.1 = "level" then (match kv.2 with | GoJson.str s => s | _ => e.Level)
      else e.Level := by
  unfold extractStep
  split_ifs <;> (try rfl) <;> (cases kv.2 <;> rfl)

theorem extractStep_Message (e : LogEntry) (kv : String × GoJson) :
    (extractStep e kv).Message =
      if kv.1 = "message" then (match kv.2 with | GoJson.str s => s | _ => e.Message)
      else e.Message := by
  unfold extractStep
  split_ifs <;> (try rfl) <;> (cases kv.2 <;> simp_all)

theorem extractStep_Time (e : LogEntry) (kv : String × GoJson) :
    (extractStep e kv).Time = if kv.1 = "time" then kv.2 else e.Time := by
  unfold extractStep
  split_ifs <;> (try rfl) <;> simp_all <;> (cases kv.2 <;> rfl)

theorem extractStep_Other (e : LogEntry) (kv : String × GoJson) :
    (extractStep e kv).Other = if isOpenField kv then e.Other ++ [kv] else e.Other := by
  unfold extractStep isOpenField
  split_ifs <;> simp_all <;> (cases kv.2 <;> rfl)

theorem foldl_extract_Other (raw : List (String × GoJson)) :
    ∀ e : LogEntry, (raw.foldl extractStep e).Other = e.Other ++ raw.filter isOpenField := by
  induction raw with
  | nil => intro e; simp
  | cons kv rest ih =>
      intro e
      rw [List.foldl_cons, ih, List.filter_cons]
      by_cases h : isOpenField kv
      · rw [if_pos h, extractStep_Other, if_pos h]
        simp
      · rw [if_neg h, extractStep_Other, if_neg h]

theorem foldl_extract_Level (raw : List (String × GoJson)) :
    ∀ e : LogEntry, (raw.map Prod.fst).Nodup →
      (raw.foldl extractStep e).Level =
        (match mapLookup raw "level" with
         | some (GoJson.str s) => s
         | _ => e.Level) := by
  induction raw with
  | nil => intro e _; rfl
  | cons kv rest ih =>
      intro e h
      simp only [List.map_cons, List.nodup_cons] at h
      rw [List.foldl_cons, ih _ h.2]
      by_cases hkv : kv.1 = "level"
      · have hnone : mapLookup rest "level" = none := mapLookup_eq_none (hkv ▸ h.1)
        rw [hnone]
        have : mapLookup (kv :: rest) "level" = some kv.2 := by
          rw [mapLookup, if_pos hkv]
        rw [this, extractStep_Level, if_pos hkv]
        cases kv.2 <;> rfl
      · have : mapLookup (kv :: rest) "level" = mapLookup rest "level" := by
          rw [mapLookup, if_neg hkv]
        rw [this, extractStep_Level, if_neg hkv]

theorem foldl_extract_Message (raw : List (String × GoJson)) :
    ∀ e : LogEntry, (raw.map Prod.fst).Nodup →
      (raw.foldl extractStep e).Message =
        (match mapLookup raw "message" with
         | some (GoJson.str s) => s
         | _ => e.Message) := by
  induction raw with
  | nil => intro e _; rfl
  | cons kv rest ih =>
      intro e h
      simp only [List.map_cons, List.nodup_cons] at h
      rw [List.foldl_cons, ih _ h.2]
      by_cases hkv : kv.1 = "message"
      · have hnone : mapLookup rest "message" = none := mapLookup_eq_none (hkv ▸ h.1)
        rw [hnone]
        have : mapLookup (kv :: rest) "message" = some kv.2 := by
          rw [mapLookup, if_pos hkv]
        rw [this, extractStep_Message, if_pos hkv]
        cases kv.2 <;> rfl
      · have : mapLookup (kv :: rest) "message" = mapLookup rest "message" := by
          rw [mapLookup, if_neg hkv]
        rw [this, extractStep_Message, if_neg hkv]

theorem foldl_extract_Time (raw : List (String × GoJson)) :
    ∀ e : LogEntry, (raw.map Prod.fst).Nodup →
      (raw.foldl extractStep e).Time =
        (match mapLookup raw "time" with
         | some v => v
         | none => e.Time) := by
  induction raw with
  | nil => intro e _; rfl
  | cons kv rest ih =>
      intro e h
      simp only [List.map_cons, List.nodup_cons] at h
      rw [List.foldl_cons, ih _ h.2]
      by_cases hkv : kv.1 = "time"
      · have hnone : mapLookup rest "time" = none := mapLookup_eq_none (hkv ▸ h.1)
        rw [hnone]
        have : mapLookup (kv :: rest) "time" = some kv.2 := by
          rw [mapLookup, if_pos hkv]
        rw [this, extractStep_Time, if_pos hkv]
      · have : mapLookup (kv :: rest) "time" = mapLookup rest "time" := by
          rw [mapLookup, if_neg hkv]
        rw [this, extractStep_Time, if_neg hkv]

/-! ### Claims -/

/-- C2: `classify` (the code's `parseLogLevel`) trims whitespace and uppercases
its input, maps the aliases TRC → TRACE, DBG → DEBUG, INF → INFO, WARNING and
WRN → WARN, and ERR, FATAL, CRIT, CRITICAL → ERROR, maps every other string
(including the empty string) to INFO without error, and the resulting levels
are totally ordered TRACE < DEBUG < INFO < WARN < ERROR. -/
theorem claim_C2_classify :
    (∀ s : String, parseLogLevel s = parseLogLevelSwitch (goToUpper (goTrimSpace s))) ∧
    (parseLogLevel "TRC" = LevelTrace ∧ parseLogLevel "trc" = LevelTrace ∧
     parseLogLevel "DBG" = LevelDebug ∧ parseLogLevel "dbg" = LevelDebug ∧
     parseLogLevel "INF" = LevelInfo ∧ parseLogLevel "inf" = LevelInfo ∧
     parseLogLevel "WARNING" = LevelWarn ∧ parseLogLevel "warning" = LevelWarn ∧
     parseLogLevel "WRN" = LevelWarn ∧ parseLogLevel "wrn" = LevelWarn ∧
     parseLogLevel "ERR" = LevelError ∧ parseLogLevel "err" = LevelError ∧
     parseLogLevel "FATAL" = LevelError ∧ parseLogLevel "fatal" = LevelError ∧
     parseLogLevel "CRIT" = LevelError ∧ parseLogLevel "crit" = LevelError ∧
     parseLogLevel "CRITICAL" = LevelError ∧ parseLogLevel "critical" = LevelError ∧
     parseLogLevel " WARN " = LevelWarn ∧ parseLogLevel "" = LevelInfo ∧
     parseLogLevel "unknown" = LevelInfo) ∧
    (∀ s : String,
        goToUpper (goTrimSpace s) ∉
          (["TRACE", "TRC", "DEBUG", "DBG", "INFO", "INF", "WARN", "WARNING", "WRN",
            "ERROR", "ERR", "FATAL", "CRIT", "CRITICAL"] : List String) →
        parseLogLevel s = LevelInfo) ∧
    (LevelTrace < LevelDebug ∧ LevelDebug < LevelInfo ∧
     LevelInfo < LevelWarn ∧ LevelWarn < LevelError) := by
  refine ⟨fun s => rfl, by decide, ?_, by decide⟩
  intro s h
  simp only [List.mem_cons, List.not_mem_nil, or_false, not_or] at h
  obtain ⟨h1, h2, h3, h4, h5, h6, h7, h8, h9, h10, h11, h12, h13, h14⟩ := h
  unfold parseLogLevel parseLogLevelSwitch
  simp [h1, h2, h3, h4, h5, h6, h7, h8, h9, h10, h11, h12, h13, h14]

/-- C2 witness: an unrecognized level string classifies as INFO. -/
theorem claim_C2_classify_witness : parseLogLevel "custom" = LevelInfo :=
  claim_C2_classify.2.2.1 "custom" (by decide)

/-- C1: for every input line and minimum-level string, `ShouldShowLogLevel`
returns true whenever the line fails to parse as JSON (including unmarshal
failures on non-object values), or the parsed object has no "level" key, or
the value of "level" is not a string; otherwise it returns true exactly when
`classify(record.level) >= classify(minLevel)`. -/
theorem claim_C1_shouldShow (jsonLine : Option GoJson) (minLevelStr : String) :
    ShouldShowLogLevel jsonLine minLevelStr = true ↔
      (jsonLine.bind unmarshalMap = none ∨
       ∃ rawLog, jsonLine.bind unmarshalMap = some rawLog ∧
         (mapLookup rawLog "level" = none ∨
          (∃ v, mapLookup rawLog "level" = some v ∧ ∀ s, v ≠ GoJson.str s) ∨
          (∃ s, mapLookup rawLog "level" = some (GoJson.str s) ∧
            parseLogLevel s ≥ parseLogLevel minLevelStr))) := by
  unfold ShouldShowLogLevel
  cases h : jsonLine.bind unmarshalMap with
  | none => simp
  | some rawLog =>
      show (match mapLookup rawLog "level" with
        | none => true
        | some levelInterface =>
          match levelInterface with
          | GoJson.str levelStr => decide (parseLogLevel levelStr ≥ parseLogLevel minLevelStr)
          | _ => true) = true ↔ _
      cases hl : mapLookup rawLog "level" with
      | none => exact ⟨fun _ => Or.inr ⟨rawLog, rfl, Or.inl hl⟩, fun _ => rfl⟩
      | some v =>
          cases v with
          | str s =>
              constructor
              · intro hge
                exact Or.inr ⟨rawLog, rfl,
                  Or.inr (Or.inr ⟨s, hl, of_decide_eq_true hge⟩)⟩
              · rintro (hnone | ⟨raw, hraw, hcase⟩)
                · exact nomatch hnone
                · obtain rfl : rawLog = raw := Option.some.inj hraw
                  rcases hcase with hnone | ⟨w, hw, hns⟩ | ⟨t, ht, hge⟩
                  · rw [hl] at hnone
                    exact nomatch hnone
                  · rw [hl] at hw
                    exact absurd (Option.some.inj hw).symm (hns s)
                  · rw [hl] at ht
                    exact decide_eq_true ((GoJson.str.inj (Option.some.inj ht)) ▸ hge)
          | null =>
              exact ⟨fun _ => Or.inr ⟨rawLog, rfl,
                Or.inr (Or.inl ⟨GoJson.null, hl, fun s hc => nomatch hc⟩)⟩, fun _ => rfl⟩
          | bool b =>
              exact ⟨fun _ => Or.inr ⟨rawLog, rfl,
                Or.inr (Or.inl ⟨GoJson.bool b, hl, fun s hc => nomatch hc⟩)⟩, fun _ => rfl⟩
          | num n =>
              exact ⟨fun _ => Or.inr ⟨rawLog, rfl,
                Or.inr (Or.inl ⟨GoJson.num n, hl, fun s hc => nomatch hc⟩)⟩, fun _ => rfl⟩
          | arr xs =>
              exact ⟨fun _ => Or.inr ⟨rawLog, rfl,
                Or.inr (Or.inl ⟨GoJson.arr xs, hl, fun s hc => nomatch hc⟩)⟩, fun _ => rfl⟩
          | obj fs =>
              exact ⟨fun _ => Or.inr ⟨rawLog, rfl,
                Or.inr (Or.inl ⟨GoJson.obj fs, hl, fun s hc => nomatch hc⟩)⟩, fun _ => rfl⟩

/-- C3 counterexample: a line whose top-level JSON value is `null` is NOT a
parse error — `json.Unmarshal` accepts `null` into a map, leaving it `nil`,
and the pipeline formats it as the empty record — contradicting the claim
that top-level scalars including null are parse errors. -/
theorem claim_C3_counterexample :
    ParseAndFormatWithOptions (some GoJson.null) [] false [] = some "" := by rfl

/-- C3 amended: `extract` fails with a parse error iff the line is not
syntactically valid JSON or its top-level value is neither a JSON object nor
JSON `null` (arrays and non-null scalars are parse errors; `null` unmarshals
into an empty record); on success the "level" and "message" keys are captured
only when their values are strings (otherwise dropped), "time" is kept
verbatim, and every other key goes into the open field bag in order. -/
theorem claim_C3_amended :
    (∀ (jsonLine : Option GoJson) (customColors : List (String × String))
        (convertTimestamps : Bool) (timestampFields : List String),
        ParseAndFormatWithOptions jsonLine customColors convertTimestamps timestampFields = none ↔
          jsonLine.bind unmarshalMap = none) ∧
    (∀ v : GoJson, unmarshalMap v = none ↔ ((∀ fs, v ≠ GoJson.obj fs) ∧ v ≠ GoJson.null)) ∧
    (∀ rawLog : List (String × GoJson), (rawLog.map Prod.fst).Nodup →
        (extractEntry rawLog).Level =
          (match mapLookup rawLog "level" with
           | some (GoJson.str s) => s
           | _ => "") ∧
        (extractEntry rawLog).Message =
          (match mapLookup rawLog "message" with
           | some (GoJson.str s) => s
           | _ => "") ∧
        (extractEntry rawLog).Time =
          (match mapLookup rawLog "time" with
           | some v => v
           | none => GoJson.null) ∧
        (extractEntry rawLog).Other = rawLog.filter isOpenField) := by
  refine ⟨?_, ?_, ?_⟩
  · intro jsonLine customColors convertTimestamps timestampFields
    unfold ParseAndFormatWithOptions
    cases jsonLine.bind unmarshalMap <;> simp
  · intro v
    cases v <;> simp [unmarshalMap]
  · intro rawLog h
    refine ⟨foldl_extract_Level rawLog {} h, foldl_extract_Message rawLog {} h,
      foldl_extract_Time rawLog {} h, ?_⟩
    rw [extractEntry, foldl_extract_Other]
    rfl

/-- C3 amended witness: the record extracted from
`{"level":42,"time":7,"message":"m","x":true}` drops the non-string level,
keeps the time verbatim, captures the message, and bags the rest. -/
theorem claim_C3_amended_witness :
    (extractEntry [("level", GoJson.num 42), ("time", GoJson.num 7),
        ("message", GoJson.str "m"), ("x", GoJson.bool true)]).Level = "" ∧
    (extractEntry [("level", GoJson.num 42), ("time", GoJson.num 7),
        ("message", GoJson.str "m"), ("x", GoJson.bool true)]).Message = "m" ∧
    (extractEntry [("level", GoJson.num 42), ("time", GoJson.num 7),
        ("message", GoJson.str "m"), ("x", GoJson.bool true)]).Time = GoJson.num 7 ∧
    (extractEntry [("level", GoJson.num 42), ("time", GoJson.num 7),
        ("message", GoJson.str "m"), ("x", GoJson.bool true)]).Other =
      [("x", GoJson.bool true)] := by
  have h := claim_C3_amended.2.2
    [("level", GoJson.num 42), ("time", GoJson.num 7),
     ("message", GoJson.str "m"), ("x", GoJson.bool true)] (by decide)
  exact ⟨h.1, h.2.1, h.2.2.1, h.2.2.2⟩

/-- C10: a record whose "message" value is the empty string renders exactly
like the same record with no "message" key at all — the empty string is
indistinguishable from absence for the message segment. -/
theorem claim_C10_empty_message (rest : List (String × GoJson))
    (customColors : List (String × String)) (convertTimestamps : Bool)
    (timestampFields : List String) :
    ParseAndFormatWithOptions (some (GoJson.obj (("message", GoJson.str "") :: rest)))
        customColors convertTimestamps timestampFields =
      ParseAndFormatWithOptions (some (GoJson.obj rest))
        customColors convertTimestamps timestampFields := by rfl

/-- C6 counterexample: "fatal" is in the ERROR severity family (the classifier
maps it to ERROR), yet `formatLevel` wraps it in the neutral default white,
not red — its switch only lists ERROR and ERR. -/
theorem claim_C6_counterexample :
    parseLogLevel "fatal" = LevelError ∧
    formatLevel "fatal" = WhiteString "FATAL" ∧
    formatLevel "fatal" ≠ RedString "FATAL" := by decide

/-- C6 amended: `formatLevel` uppercases its input and wraps exactly ERROR and
ERR in red, WARN and WARNING in yellow, INFO in green, DEBUG in blue, TRACE in
magenta, and every other string — including the family members FATAL, CRIT,
CRITICAL and the aliases WRN, TRC, DBG, INF — in the neutral default white,
never an error. -/
theorem claim_C6_amended (level : String) :
    (goToUpper level = "ERROR" ∨ goToUpper level = "ERR" →
      formatLevel level = RedString (goToUpper level)) ∧
    (goToUpper level = "WARN" ∨ goToUpper level = "WARNING" →
      formatLevel level = YellowString (goToUpper level)) ∧
    (goToUpper level = "INFO" → formatLevel level = GreenString (goToUpper level)) ∧
    (goToUpper level = "DEBUG" → formatLevel level = BlueString (goToUpper level)) ∧
    (goToUpper level = "TRACE" → formatLevel level = MagentaString (goToUpper level)) ∧
    (goToUpper level ∉
        (["ERROR", "ERR", "WARN", "WARNING", "INFO", "DEBUG", "TRACE"] : List String) →
      formatLevel level = WhiteString (goToUpper level)) := by
  unfold formatLevel
  refine ⟨?_, ?_, ?_, ?_, ?_, ?_⟩
  · rintro (h | h) <;> simp [h]
  · rintro (h | h) <;> simp [h]
  · intro h; simp [h]
  · intro h; simp [h]
  · intro h; simp [h]
  · intro h
    simp only [List.mem_cons, List.not_mem_nil, or_false, not_or] at h
    obtain ⟨h1, h2, h3, h4, h5, h6, h7⟩ := h
    simp [h1, h2, h3, h4, h5, h6, h7]

/-- C6 amended witness: FATAL gets the default white, INFO gets green. -/
theorem claim_C6_amended_witness :
    formatLevel "fatal" = WhiteString (goToUpper "fatal") ∧
    formatLevel "info" = GreenString (goToUpper "info") :=
  ⟨(claim_C6_amended "fatal").2.2.2.2.2 (by decide),
   (claim_C6_amended "info").2.2.1 (by decide)⟩

/-- C7 counterexample: `-20000000000` has magnitude above 1e10, so the claim
says it is interpreted as milliseconds (which would render the 1969 date),
but the code compares signed (`t > 1e10`), takes the seconds branch, and
renders a 14th-century date. -/
theorem claim_C7_counterexample :
    (Int.natAbs (-20000000000) > 10000000000) ∧
    formatTime (GoJson.num (-20000000000)) = epochToDateTime (-20000000000) ∧
    formatTime (GoJson.num (-20000000000)) = "1336-03-23 12:26:40" ∧
    epochToDateTime (Int.fdiv (-20000000000) 1000) = "1969-05-14 12:26:40" ∧
    ("1336-03-23 12:26:40" : String) ≠ "1969-05-14 12:26:40" := by decide

/-- C7 amended: `formatTime` interprets a numeric value as milliseconds since
epoch when the value itself exceeds 1e10 (a signed comparison, so negative
values of any magnitude are whole seconds) provided the nanosecond product
fits in int64, and as whole seconds otherwise, and formats the result
zero-padded as YYYY-MM-DD HH:MM:SS in UTC; in particular 1609459200 renders
as 2021-01-01 00:00:00 and 1749975482337 renders as 2025-06-15 08:18:02. -/
theorem claim_C7_amended :
    (∀ n : Int, 10000000000 < n → n * 1000000 < 9223372036854775808 →
        formatTime (GoJson.num n) = epochToDateTime (Int.fdiv n 1000)) ∧
    (∀ n : Int, n ≤ 10000000000 → formatTime (GoJson.num n) = epochToDateTime n) ∧
    formatTime (GoJson.num 1609459200) = "2021-01-01 00:00:00" ∧
    formatTime (GoJson.num 1749975482337) = "2025-06-15 08:18:02" := by
  refine ⟨?_, ?_, by decide, by decide⟩
  · intro n hgt hfit
    show (if n > 10000000000
        then epochToDateTime (Int.fdiv (int64wrap (n * 1000000)) 1000000000)
        else epochToDateTime n) = epochToDateTime (Int.fdiv n 1000)
    rw [if_pos hgt]
    have hwrap : int64wrap (n * 1000000) = n * 1000000 := by
      have h0 : (0 : Int) ≤ n * 1000000 + 9223372036854775808 := by nlinarith
      have h1 : n * 1000000 + 9223372036854775808 < 18446744073709551616 := by linarith
      show (n * 1000000 + 9223372036854775808) % 18446744073709551616 -
          9223372036854775808 = n * 1000000
      rw [Int.emod_eq_of_lt h0 h1]
      ring
    rw [hwrap, Int.fdiv_eq_ediv _ (by norm_num), Int.fdiv_eq_ediv _ (by norm_num)]
    have : (1000000000 : Int) = 1000000 * 1000 := by norm_num
    rw [this, mul_comm n 1000000, Int.mul_ediv_mul_of_pos _ _ (by norm_num)]
  · intro n hle
    show (if n > 10000000000
        then epochToDateTime (Int.fdiv (int64wrap (n * 1000000)) 1000000000)
        else epochToDateTime n) = epochToDateTime n
    rw [if_neg (by omega)]

/-- C7 amended witness: both branch characterizations applied at the claim's
concrete inputs. -/
theorem claim_C7_amended_witness :
    formatTime (GoJson.num 1749975482337) = epochToDateTime (Int.fdiv 1749975482337 1000) ∧
    formatTime (GoJson.num 1609459200) = epochToDateTime 1609459200 :=
  ⟨claim_C7_amended.1 1749975482337 (by norm_num) (by norm_num),
   claim_C7_amended.2.1 1609459200 (by norm_num)⟩

/-- C8: rendering is NOT invariant under the iteration order of the custom
color-rule map — `applyCustomColors` walks the Go map in `range` order instead
of a materialized, sorted key order, so the same record with the same rule set
(two permutations of one map's entries) renders differently. -/
theorem claim_C8_order_dependent :
    ([("ab", "red"), ("b", "blue")] : List (String × String)).Perm
        [("b", "blue"), ("ab", "red")] ∧
    formatEntryWithOptions { Message := "ab" } [("ab", "red"), ("b", "blue")] false [] ≠
      formatEntryWithOptions { Message := "ab" } [("b", "blue"), ("ab", "red")] false [] := by
  constructor
  · decide
  · decide

/-- C9: with timestamp conversion enabled and an explicit field list, a field
value is converted exactly when the field name is a case-insensitive
exact-name member of that list (no heuristic inference); a converted value
renders as "<converted> (<original-stringified>)" when conversion succeeds
and differs from the original stringified form, and as the original
stringified form otherwise. -/
theorem claim_C9_timestamp_fields :
    (∀ (key : String) (timestampFields : List String),
        (timestampFields.any (fun field => goEqualFold key field) = true) ↔
          ∃ f ∈ timestampFields, goEqualFold key f = true) ∧
    (∀ (key : String) (value : GoJson) (timestampFields : List String),
        (∀ f ∈ timestampFields, goEqualFold key f = false) →
          convertTimestampFieldWithConfig key value timestampFields = goFormatValue value) ∧
    (∀ (key : String) (value : GoJson) (timestampFields : List String),
        (∃ f ∈ timestampFields, goEqualFold key f = true) →
        formatTime value ≠ "" → formatTime value ≠ goFormatValue value →
          convertTimestampFieldWithConfig key value timestampFields =
            formatTime value ++ " (" ++ goFormatValue value ++ ")") ∧
    (∀ (key : String) (value : GoJson) (timestampFields : List String),
        (∃ f ∈ timestampFields, goEqualFold key f = true) →
        (formatTime value = "" ∨ formatTime value = goFormatValue value) →
          convertTimestampFieldWithConfig key value timestampFields = goFormatValue value) ∧
    (∀ (entry : LogEntry) (customColors : List (String × String))
        (timestampFields : List String) (key : String),
        renderField entry customColors true timestampFields key =
          MagentaString key ++ "=" ++
            applyCustomColors
              (YellowString (convertTimestampFieldWithConfig key (mapIndex entry.Other key)
                timestampFields)) customColors) ∧
    convertTimestampFieldWithConfig "ValidUntil" (GoJson.num 1760134416629) ["validuntil"] =
      "2025-10-10 22:13:36 (1.760134416629e+12)" := by
  refine ⟨?_, ?_, ?_, ?_, fun _ _ _ _ => rfl, by decide⟩
  · intro key timestampFields
    simp [List.any_eq_true]
  · intro key value timestampFields h
    have hc : timestampFields.any (fun field => goEqualFold key field) = false := by
      simp only [List.any_eq_false]
      intro f hf
      simp [h f hf]
    unfold convertTimestampFieldWithConfig
    rw [hc]
    rfl
  · intro key value timestampFields h h1 h2
    have hc : timestampFields.any (fun field => goEqualFold key field) = true := by
      obtain ⟨f, hf, hp⟩ := h
      exact List.any_eq_true.mpr ⟨f, hf, hp⟩
    unfold convertTimestampFieldWithConfig
    rw [hc]
    simp [h1, h2]
  · intro key value timestampFields h hd
    have hc : timestampFields.any (fun field => goEqualFold key field) = true := by
      obtain ⟨f, hf, hp⟩ := h
      exact List.any_eq_true.mpr ⟨f, hf, hp⟩
    unfold convertTimestampFieldWithConfig
    rw [hc]
    rcases hd with hd | hd <;> simp [hd]

/-- C9 witness: the conversion rule applied at a concrete in-list field. -/
theorem claim_C9_timestamp_fields_witness :
    convertTimestampFieldWithConfig "expires" (GoJson.num 1609459200) ["expires"] =
      formatTime (GoJson.num 1609459200) ++ " (" ++
        goFormatValue (GoJson.num 1609459200) ++ ")" :=
  claim_C9_timestamp_fields.2.2.1 "expires" (GoJson.num 1609459200) ["expires"]
    ⟨"expires", by decide, by decide⟩ (by decide) (by decide)


theorem sortStrings_nil : sortStrings [] = [] := rfl

/-- The renderer's output decomposed as the spec describes it: the four
segments in fixed order — time, LEVEL, message, fields — each omitted
entirely when its source is absent (the field segment is governed by the
key list, which is empty exactly when the open bag is). -/
def renderSegments (entry : LogEntry) (customColors : List (String × String))
    (convertTimestamps : Bool) (timestampFields : List String) : List String :=
  (if formatTime entry.Time ≠ "" then [CyanString (formatTime entry.Time)] else []) ++
  (if entry.Level ≠ "" then [formatLevel entry.Level] else []) ++
  (if entry.Message ≠ "" then [applyCustomColors entry.Message customColors] else []) ++
  (if entry.Other.map Prod.fst ≠ [] then
    [String.intercalate " "
      ((sortStrings (entry.Other.map Prod.fst)).map
        (renderField entry customColors convertTimestamps timestampFields))]
   else [])

theorem formatEntry_eq_segments (entry : LogEntry) (customColors : List (String × String))
    (convertTimestamps : Bool) (timestampFields : List String) :
    formatEntryWithOptions entry customColors convertTimestamps timestampFields =
      String.intercalate " " (renderSegments entry customColors convertTimestamps
        timestampFields) := by
  have hOther : ((sortStrings (entry.Other.map Prod.fst)).map
      (renderField entry customColors convertTimestamps timestampFields) = []) ↔
        entry.Other.map Prod.fst = [] := by
    rw [List.map_eq_nil_iff, sortStrings_eq_nil]
  unfold formatEntryWithOptions renderSegments
  by_cases h1 : formatTime entry.Time = "" <;>
    by_cases h2 : entry.Level = "" <;>
      by_cases h3 : entry.Message = "" <;>
        by_cases h4 : entry.Other.map Prod.fst = [] <;>
          simp [h1, h2, h3, h4, hOther, sortStrings_nil]

/-- C4: for every record, the renderer produces a single line of
space-separated segments in the fixed order time, LEVEL, message, then
key=value fields, and any segment whose source value is absent is omitted
entirely — no empty placeholder and no extra space; in particular the record
of `{"level":"debug","time":1749975482337,"message":"hello","component":"auth"}`
renders as time, DEBUG, hello, then component=auth, each exactly once. -/
theorem claim_C4_segment_order :
    (∀ (entry : LogEntry) (customColors : List (String × String))
        (convertTimestamps : Bool) (timestampFields : List String),
        formatEntryWithOptions entry customColors convertTimestamps timestampFields =
          String.intercalate " "
            (renderSegments entry customColors convertTimestamps timestampFields)) ∧
    ParseAndFormatWithOptions (some (GoJson.obj
        [("level", GoJson.str "debug"), ("time", GoJson.num 1749975482337),
         ("message", GoJson.str "hello"), ("component", GoJson.str "auth")])) [] false [] =
      some (CyanString "2025-06-15 08:18:02" ++ " " ++ BlueString "DEBUG" ++ " " ++
        WhiteString "hello" ++ " " ++
        (MagentaString "component" ++ "=" ++ WhiteString (YellowString "auth"))) :=
  ⟨formatEntry_eq_segments, by decide⟩

/-- C5: the keys of the open field bag appear in the rendered output sorted
lexicographically ascending, regardless of the bag's internal iteration
order — the renderer materializes and sorts the keys, so any permutation of
the bag (with the distinct keys JSON objects guarantee) renders identically;
in particular for fields z_last/a_first the a_first= segment comes strictly
before z_last=. -/
theorem claim_C5_sorted_fields :
    (∀ (entry : LogEntry) (other₂ : List (String × GoJson))
        (customColors : List (String × String)) (convertTimestamps : Bool)
        (timestampFields : List String),
        entry.Other.Perm other₂ → (entry.Other.map Prod.fst).Nodup →
        formatEntryWithOptions entry customColors convertTimestamps timestampFields =
          formatEntryWithOptions { entry with Other := other₂ } customColors
            convertTimestamps timestampFields) ∧
    (∀ keys : List String,
        List.Sorted (fun a b => goStringLe a b = true) (sortStrings keys)) ∧
    formatEntryWithOptions
        { Other := [("z_last", GoJson.str "last"), ("a_first", GoJson.str "first")] }
        [] false [] =
      MagentaString "a_first" ++ "=" ++ WhiteString (YellowString "first") ++ " " ++
        (MagentaString "z_last" ++ "=" ++ WhiteString (YellowString "last")) := by
  refine ⟨?_, sortStrings_sorted, by decide⟩
  intro entry other₂ customColors convertTimestamps timestampFields hperm hnodup
  rw [formatEntry_eq_segments, formatEntry_eq_segments]
  unfold renderSegments
  have hfield : renderField { entry with Other := other₂ } customColors convertTimestamps
      timestampFields = renderField entry customColors convertTimestamps timestampFields := by
    funext key
    have hx : mapIndex other₂ key = mapIndex entry.Other key := by
      unfold mapIndex
      rw [mapLookup_perm key hperm hnodup]
    dsimp only [renderField]
    rw [hx]
  have hkeys : sortStrings (other₂.map Prod.fst) = sortStrings (entry.Other.map Prod.fst) :=
    sortStrings_congr_perm ((hperm.map Prod.fst).symm)
  have hnil : (other₂.map Prod.fst = []) ↔ (entry.Other.map Prod.fst = []) := by
    rw [← List.length_eq_zero, ← List.length_eq_zero, ((hperm.map Prod.fst).length_eq).symm]
  simp only [ne_eq, hfield, hkeys, hnil]

/-- C5 witness: the two iteration orders of a concrete two-field bag render
identically. -/
theorem claim_C5_sorted_fields_witness :
    formatEntryWithOptions
        { Other := [("z_last", GoJson.str "last"), ("a_first", GoJson.str "first")] }
        [] false [] =
      formatEntryWithOptions
        { Other := [("a_first", GoJson.str "first"), ("z_last", GoJson.str "last")] }
        [] false [] :=
  claim_C5_sorted_fields.1
    { Other := [("z_last", GoJson.str "last"), ("a_first", GoJson.str "first")] }
    [("a_first", GoJson.str "first"), ("z_last", GoJson.str "last")] [] false []
    (List.Perm.swap _ _ _) (by decide)
